import Mathlib

/-!
# Verification of the `snord` bubble-shooter gameplay core

Shallow embedding of the gameplay core of the `snord` repository
(`src/game/hex.rs`, `grid.rs`, `cluster.rs`, `projectile.rs`, `state.rs`)
together with proofs settling the frozen claims about the
natural-language specification.

Modelling conventions:
* `f32` pixel arithmetic is embedded in `ℚ`, with the source's float
  literals read as the written decimal rationals (`SQRT_3 = 1.7320508`).
* `u32`/`usize` counters are embedded in `ℕ`; the Rust build panics on
  overflow rather than wrapping, and no claim concerns wrap-around.
* The Rust `HashMap<HexCoord, Entity>` plus the `Bubble` component holding
  the color is embedded as an association list `List (HexCoord × BubbleColor)`
  with map semantics (lookup = first match); every grid built by the game
  has distinct keys, and theorems that need distinctness assume it.
* The two flood fills are queue-based BFS loops in the source; they are
  embedded as structurally recursive worklist functions with an explicit
  fuel argument, and the fuel chosen at the top level is proved sufficient
  (the correctness theorems show the computed set is the reachability
  closure, which is fuel-independent once the fuel dominates the loop
  measure).
-/

namespace Snord

/-! ## Hex coordinates (`src/game/hex.rs`) -/

/-- `SQRT_3` from `hex.rs`: the f32 literal `1.732_050_8`, read as a rational. -/
def SQRT_3 : ℚ := 17320508 / 10000000

/-- `HEX_SIZE` from `hex.rs`: outer radius of each hexagon in pixels. -/
def HEX_SIZE : ℚ := 20

/-- `GRID_ORIGIN_Y` from `hex.rs`: the Y pixel position of row 0. -/
def GRID_ORIGIN_Y : ℚ := 250

/-- Offset hex coordinate (odd-r system), `HexCoord` in `hex.rs`. -/
structure HexCoord where
  q : ℤ
  r : ℤ
deriving DecidableEq, Repr

/-- 2D pixel vector, standing in for Bevy's `Vec2`. -/
structure Vec2 where
  x : ℚ
  y : ℚ
deriving DecidableEq, Repr

namespace HexCoord

/-- `HexCoord::neighbors` from `hex.rs`.  Rust's `self.r % 2 != 0` is true
exactly when `r` is odd (for negative `r` the Rust remainder is `-1`,
Lean's `emod` is `1`; both are nonzero exactly on odd `r`). -/
def neighbors (c : HexCoord) : List HexCoord :=
  if c.r % 2 ≠ 0 then
    [⟨c.q + 1, c.r⟩, ⟨c.q + 1, c.r - 1⟩, ⟨c.q, c.r - 1⟩,
     ⟨c.q - 1, c.r⟩, ⟨c.q, c.r + 1⟩, ⟨c.q + 1, c.r + 1⟩]
  else
    [⟨c.q + 1, c.r⟩, ⟨c.q, c.r - 1⟩, ⟨c.q - 1, c.r - 1⟩,
     ⟨c.q - 1, c.r⟩, ⟨c.q - 1, c.r + 1⟩, ⟨c.q, c.r + 1⟩]

/-- `f32::round` as used on the exact rational values in `from_pixel_with_offset`:
round half away from zero. -/
def rustRound (x : ℚ) : ℤ :=
  if 0 ≤ x then ⌊x + 1/2⌋ else -⌊-x + 1/2⌋

/-- `HexCoord::to_pixel_with_offset` from `hex.rs`. -/
def to_pixel_with_offset (c : HexCoord) (size : ℚ) (grid_origin_y : ℚ) : Vec2 :=
  let row_offset : ℚ := if c.r % 2 ≠ 0 then 1/2 else 0
  let x := size * SQRT_3 * ((c.q : ℚ) + row_offset)
  let y := size * (3/2) * (c.r : ℚ)
  ⟨x, grid_origin_y - y⟩

/-- `HexCoord::from_pixel_with_offset` from `hex.rs`. -/
def from_pixel_with_offset (pos : Vec2) (size : ℚ) (grid_origin_y : ℚ) : HexCoord :=
  let y := grid_origin_y - pos.y
  let x := pos.x
  let r := rustRound (y / (size * (3/2)))
  let row_offset : ℚ := if r % 2 ≠ 0 then 1/2 else 0
  let q := rustRound (x / (size * SQRT_3) - row_offset)
  ⟨q, r⟩

end HexCoord

/-! ## Danger-line constants (`shooter.rs`, `projectile.rs`, `state.rs`) -/

/-- `SHOOTER_Y` from `shooter.rs`. -/
def SHOOTER_Y : ℚ := -210

namespace Projectile

/-- `DANGER_LINE_Y` from `projectile.rs` (the projectile-path threshold). -/
def DANGER_LINE_Y : ℚ := SHOOTER_Y + 80

end Projectile

namespace LevelState

/-- `DANGER_LINE_Y` from `state.rs` (the continuous-loss-check threshold). -/
def DANGER_LINE_Y : ℚ := SHOOTER_Y + 40

end LevelState

/-- The danger test on a resolved landing position in
`check_wall_collision` (`projectile.rs`): `landing_y < DANGER_LINE_Y`. -/
def landing_in_danger (landing_y : ℚ) : Bool :=
  landing_y < Projectile.DANGER_LINE_Y

/-- The danger test on the projectile's contact position in
`check_bubble_collision` (`projectile.rs`): `proj_pos.y < DANGER_LINE_Y`. -/
def collision_in_danger (proj_y : ℚ) : Bool :=
  proj_y < Projectile.DANGER_LINE_Y

/-- The continuous loss check of `check_lose_condition` (`state.rs`) over the
pixel y positions of the grid's bubbles: any below `DANGER_LINE_Y`. -/
def lose_check (ys : List ℚ) : Bool :=
  ys.any (fun y => y < LevelState.DANGER_LINE_Y)

/-- The post-descent game-over check inside `handle_descent` (`state.rs`):
any bubble transform below `DANGER_LINE_Y`. -/
def descent_danger_check (ys : List ℚ) : Bool :=
  ys.any (fun y => y < LevelState.DANGER_LINE_Y)

/-! ## Projectile wall bounce (`projectile.rs`) -/

/-- `LEFT_WALL` from `projectile.rs`. -/
def LEFT_WALL : ℚ := -245

/-- `RIGHT_WALL` from `projectile.rs`. -/
def RIGHT_WALL : ℚ := 245

/-- A projectile's kinematic state: position and velocity
(`Transform.translation` truncated to 2D, `Projectile.velocity`). -/
structure ProjState where
  pos : Vec2
  vel : Vec2
deriving DecidableEq, Repr

/-- The side-wall portion of `check_wall_collision` (`projectile.rs`).
Both conditions test `pos`, the translation captured before any mutation;
the right-wall branch sees the velocity possibly rewritten by the
left-wall branch, exactly as in the source. -/
def check_wall_collision (p : ProjState) : ProjState :=
  let radius : ℚ := HEX_SIZE * (9/10)
  let pos := p.pos
  let p1 :=
    if pos.x - radius < LEFT_WALL then
      { pos := ⟨LEFT_WALL + radius, p.pos.y⟩, vel := ⟨|p.vel.x|, p.vel.y⟩ }
    else p
  if RIGHT_WALL < pos.x + radius then
    { pos := ⟨RIGHT_WALL - radius, p1.pos.y⟩, vel := ⟨-|p1.vel.x|, p1.vel.y⟩ }
  else p1

/-! ## Score and win condition (`state.rs`) -/

/-- `POINTS_PER_BUBBLE` from `state.rs`. -/
def POINTS_PER_BUBBLE : ℕ := 10

/-- `FLOATING_BONUS_MULTIPLIER` from `state.rs`. -/
def FLOATING_BONUS_MULTIPLIER : ℕ := 2

/-- `GameScore` from `state.rs`. -/
structure GameScore where
  score : ℕ
  bubbles_popped : ℕ
  clusters_popped : ℕ
deriving DecidableEq, Repr

/-- The `ClusterPopped` arm of `update_score` (`state.rs`): `combo` is
`powerups.has(PowerUp::ComboSnord)` and `count` the event's count. -/
def update_score_cluster (s : GameScore) (combo : Bool) (count : ℕ) : GameScore :=
  let points := count * POINTS_PER_BUBBLE
  let points := if combo ∧ 3 < count then points + points / 2 else points
  { score := s.score + points
    bubbles_popped := s.bubbles_popped + count
    clusters_popped := s.clusters_popped + 1 }

/-- The `FloatingBubblesRemoved` arm of `update_score` (`state.rs`). -/
def update_score_floating (s : GameScore) (count : ℕ) : GameScore :=
  { s with
    score := s.score + count * POINTS_PER_BUBBLE * FLOATING_BONUS_MULTIPLIER
    bubbles_popped := s.bubbles_popped + count }

/-! ## The grid (`src/game/grid.rs`) -/

/-- The six bubble colors (`BubbleColor` in `bubble.rs`). -/
inductive BubbleColor
  | Red | Blue | Green | Yellow | Purple | Orange
deriving DecidableEq, Repr

/-- `GridBounds` from `grid.rs`. -/
structure GridBounds where
  min_q : ℤ
  max_q : ℤ
  min_r : ℤ
  max_r : ℤ
deriving DecidableEq, Repr

/-- `GridBounds::contains` from `grid.rs`. -/
def GridBounds.contains (b : GridBounds) (c : HexCoord) : Bool :=
  decide (b.min_q ≤ c.q) && decide (c.q ≤ b.max_q) &&
  decide (b.min_r ≤ c.r) && decide (c.r ≤ b.max_r)

/-- `GridBounds::default` from `grid.rs`. -/
def default_bounds : GridBounds := ⟨-6, 6, 0, 13⟩

/-- `HexGrid` from `grid.rs`.  The Rust `HashMap<HexCoord, Entity>` together
with the `Bubble` component carrying the color (looked up through
`bubble_query` at the entity) is embedded as an association list from
coordinate to color with first-match lookup. -/
structure HexGrid where
  bubbles : List (HexCoord × BubbleColor)
  bounds : GridBounds
deriving DecidableEq, Repr

namespace HexGrid

/-- `HexGrid::get` composed with the color lookup through `bubble_query`. -/
def get (g : HexGrid) (c : HexCoord) : Option BubbleColor :=
  (g.bubbles.find? (fun p => decide (p.1 = c))).map Prod.snd

/-- `HexGrid::is_occupied` from `grid.rs`. -/
def is_occupied (g : HexGrid) (c : HexCoord) : Bool :=
  (g.get c).isSome

/-- `HexGrid::is_adjacent_to_bubble` from `grid.rs`. -/
def is_adjacent_to_bubble (g : HexGrid) (c : HexCoord) : Bool :=
  c.neighbors.any (fun n => g.is_occupied n)

/-- `HexGrid::remove` from `grid.rs` (map semantics: the key disappears). -/
def remove (g : HexGrid) (c : HexCoord) : HexGrid :=
  { g with bubbles := g.bubbles.filter (fun p => decide (p.1 ≠ c)) }

/-- `HexGrid::is_empty` from `grid.rs`. -/
def is_empty (g : HexGrid) : Bool :=
  g.bubbles.isEmpty

/-- `HexGrid::coords` from `grid.rs`: all occupied coordinates. -/
def coords (g : HexGrid) : List HexCoord :=
  g.bubbles.map Prod.fst

/-- `HexGrid::top_row_coords` from `grid.rs`: all occupied coordinates in the
current minimum row (the top may be negative after descents). -/
def top_row_coords (g : HexGrid) : List HexCoord :=
  match (g.bubbles.map (fun p => p.1.r)).min? with
  | none => []
  | some m => g.coords.filter (fun c => decide (c.r = m))

end HexGrid

/-- The landing-legality condition tested (twice) inside
`closest_empty_cell` (`grid.rs`): within bounds or adjacent to an existing
bubble, and free. -/
def legal_free (g : HexGrid) (c : HexCoord) : Bool :=
  (g.bounds.contains c || g.is_adjacent_to_bubble c) && !g.is_occupied c

/-- One pass of the inner `for coord in to_check` loop of
`closest_empty_cell` (`grid.rs`): scans the current ring, skipping already
checked cells, returning the first legal free cell (`Sum.inl`) or the grown
checked set together with the accumulated next ring (`Sum.inr`). -/
def ring_pass (g : HexGrid) :
    List HexCoord → Finset HexCoord → List HexCoord →
    HexCoord ⊕ (Finset HexCoord × List HexCoord)
  | [], checked, next_ring => Sum.inr (checked, next_ring)
  | coord :: rest, checked, next_ring =>
    if coord ∈ checked then ring_pass g rest checked next_ring
    else
      let checked' := insert coord checked
      if legal_free g coord then Sum.inl coord
      else
        ring_pass g rest checked'
          (next_ring ++ coord.neighbors.filter (fun n => decide (n ∉ checked')))

/-- The `while !to_check.is_empty()` loop of `closest_empty_cell`
(`grid.rs`), including the safety cap `checked.len() > 1000`.  The fuel
argument only bounds the number of ring iterations; the source loop caps
`checked` at 1000 entries and every iteration either terminates the loop or
grows `checked`, so 2000 iterations dominate any run. -/
def closest_empty_cell_loop (g : HexGrid) :
    ℕ → Finset HexCoord → List HexCoord → Option HexCoord
  | 0, _, _ => none
  | fuel + 1, checked, to_check =>
    if to_check.isEmpty then none
    else
      match ring_pass g to_check checked [] with
      | Sum.inl c => some c
      | Sum.inr (checked', next_ring) =>
        if 1000 < checked'.card then none
        else closest_empty_cell_loop g fuel checked' next_ring

/-- Ring-iteration fuel dominating the source's 1000-cell safety cap. -/
def RING_SEARCH_FUEL : ℕ := 2000

/-- `HexGrid::closest_empty_cell` from `grid.rs`. -/
def closest_empty_cell (g : HexGrid) (world_pos : Vec2) (grid_origin_y : ℚ) :
    Option HexCoord :=
  let target := HexCoord.from_pixel_with_offset world_pos HEX_SIZE grid_origin_y
  if legal_free g target then some target
  else closest_empty_cell_loop g RING_SEARCH_FUEL ∅ [target]

/-- `check_win_condition` from `state.rs`: win needs at least one popped
cluster and an empty grid. -/
def check_win_condition (g : HexGrid) (s : GameScore) : Bool :=
  decide (0 < s.clusters_popped) && g.is_empty

/-! ## Cluster detection (`src/game/cluster.rs`) -/

/-- `MIN_CLUSTER_SIZE` from `cluster.rs`. -/
def MIN_CLUSTER_SIZE : ℕ := 3

/-- The `while let Some(coord) = queue.pop_front()` loop of `find_cluster`
(`cluster.rs`).  The fuel argument only bounds the number of loop
iterations; every enqueued coordinate is simultaneously inserted into
`visited`, so iterations cannot exceed the (finite) pool of coordinates the
search can ever visit, and the fuel chosen in `find_cluster` is proved to
dominate it. -/
def find_cluster_aux (g : HexGrid) (target : BubbleColor) :
    ℕ → List HexCoord → Finset HexCoord → List HexCoord → List HexCoord
  | 0, cluster, _, _ => cluster
  | _ + 1, cluster, _, [] => cluster
  | fuel + 1, cluster, visited, coord :: rest =>
    match g.get coord with
    | some col =>
      if col = target then
        find_cluster_aux g target fuel (cluster ++ [coord])
          (visited ∪ (coord.neighbors.filter (fun n => decide (n ∉ visited))).toFinset)
          (rest ++ coord.neighbors.filter (fun n => decide (n ∉ visited)))
      else find_cluster_aux g target fuel cluster visited rest
    | none => find_cluster_aux g target fuel cluster visited rest

/-- Fuel dominating the loop measure of `find_cluster_aux` on grid `g`
(7 × the visitable-universe size plus the initial queue; see
`find_cluster_mem_iff` for the sufficiency argument). -/
def CLUSTER_FUEL (g : HexGrid) : ℕ := 42 * g.bubbles.length + 7

/-- `find_cluster` from `cluster.rs`: BFS flood fill collecting the
same-colored component; the start cell is included unconditionally (its
color comes from the `BubbleLanded` event, not from the grid). -/
def find_cluster (g : HexGrid) (start : HexCoord) (target : BubbleColor) :
    List HexCoord :=
  let init := start.neighbors.filter (fun n => decide (n ∉ ({start} : Finset HexCoord)))
  find_cluster_aux g target (CLUSTER_FUEL g) [start] (insert start init.toFinset) init

/-- Result of one landing event processed by `detect_clusters`
(`cluster.rs`): the updated grid and the optional `ClusterPopped` message
`{coords, color, count}`. -/
structure PopOutcome where
  grid : HexGrid
  event : Option (List HexCoord × BubbleColor × ℕ)
deriving DecidableEq, Repr

/-- The per-`BubbleLanded`-event body of `detect_clusters` (`cluster.rs`),
with the animation and audio side effects omitted: find the cluster from the
landed coordinate/color; if it reaches `MIN_CLUSTER_SIZE`, remove every
member from the grid and emit one `ClusterPopped` message, else leave the
grid untouched and emit nothing. -/
def detect_clusters (g : HexGrid) (coord : HexCoord) (color : BubbleColor) :
    PopOutcome :=
  if MIN_CLUSTER_SIZE ≤ (find_cluster g coord color).length then
    ⟨(find_cluster g coord color).foldl (fun acc c => acc.remove c) g,
      some (find_cluster g coord color, color, (find_cluster g coord color).length)⟩
  else ⟨g, none⟩

/-- The BFS loop of `find_anchored_bubbles` (`cluster.rs`); occupancy is
tested at enqueue time.  Fuel as in `find_cluster_aux`. -/
def find_anchored_aux (g : HexGrid) :
    ℕ → Finset HexCoord → List HexCoord → Finset HexCoord
  | 0, anchored, _ => anchored
  | _ + 1, anchored, [] => anchored
  | fuel + 1, anchored, coord :: rest =>
    find_anchored_aux g fuel
      (anchored ∪ (coord.neighbors.filter
        (fun n => decide (n ∉ anchored) && g.is_occupied n)).toFinset)
      (rest ++ coord.neighbors.filter
        (fun n => decide (n ∉ anchored) && g.is_occupied n))

/-- Fuel dominating the loop measure of `find_anchored_aux` on grid `g`. -/
def ANCHOR_FUEL (g : HexGrid) : ℕ := 8 * g.bubbles.length + 1

/-- `find_anchored_bubbles` from `cluster.rs`: all bubbles connected to the
current top row, seeded with `top_row_coords`. -/
def find_anchored_bubbles (g : HexGrid) : Finset HexCoord :=
  find_anchored_aux g (ANCHOR_FUEL g) g.top_row_coords.toFinset g.top_row_coords

/-- The floating coordinates computed by `detect_floating_bubbles`
(`cluster.rs`): occupied but not anchored. -/
def floating_list (g : HexGrid) : List HexCoord :=
  g.coords.filter (fun c => decide (c ∉ find_anchored_bubbles g))

/-- Result of the floating-bubble pass: the updated grid and the optional
`FloatingBubblesRemoved` message `{coords, count}`. -/
structure FloatingOutcome where
  grid : HexGrid
  event : Option (List HexCoord × ℕ)
deriving DecidableEq, Repr

/-- The core of `detect_floating_bubbles` (`cluster.rs`), run after a
`ClusterPopped` message this tick (a no-op otherwise), with animation side
effects omitted: remove every occupied coordinate not connected to the top
row and report them if any. -/
def detect_floating_bubbles (g : HexGrid) : FloatingOutcome :=
  if (floating_list g).isEmpty then ⟨g, none⟩
  else ⟨(floating_list g).foldl (fun acc c => acc.remove c) g,
    some (floating_list g, (floating_list g).length)⟩

/-! ## Declarative reachability (the specification side of C2 and C4) -/

/-- One expansion step of the same-color flood fill, read off the spec: from
`a`, a grid-occupied cell of the target color, to any neighbor `b`. -/
def clusterStep (g : HexGrid) (target : BubbleColor) (a b : HexCoord) : Prop :=
  g.get a = some target ∧ b ∈ a.neighbors

/-- `c` is reachable from `start` through a chain of neighbors that are
grid-occupied and hold the target color (the chain's first cell is a
neighbor of `start`; every cell on it, `c` included, holds the target
color). -/
def clusterReachable (g : HexGrid) (target : BubbleColor) (start c : HexCoord) : Prop :=
  g.get c = some target ∧
    ∃ a, a ∈ start.neighbors ∧ Relation.ReflTransGen (clusterStep g target) a c

/-- One expansion step of the anchoring flood fill: to a neighbor that is
occupied. -/
def anchorStep (g : HexGrid) (a b : HexCoord) : Prop :=
  b ∈ a.neighbors ∧ g.is_occupied b = true

/-- `c` is anchored in the declarative sense: reachable from some occupied
top-row coordinate through occupied neighbors. -/
def anchoredSpec (g : HexGrid) (c : HexCoord) : Prop :=
  ∃ s, s ∈ g.top_row_coords ∧ Relation.ReflTransGen (anchorStep g) s c

/-- The finite universe of coordinates the cluster BFS can ever insert into
`visited`: neighbors of occupied cells. -/
def clusterUniverse (g : HexGrid) : Finset HexCoord :=
  g.bubbles.foldr (fun p acc => p.1.neighbors.toFinset ∪ acc) ∅

/-! ## Concrete fixtures used by the witnesses -/

/-- Fixture: a red pair adjacent to the origin plus a blue bubble adjacent to
the pair. -/
def wgrid1 : HexGrid :=
  ⟨[(⟨1, 0⟩, BubbleColor.Red), (⟨0, 1⟩, BubbleColor.Red), (⟨2, 0⟩, BubbleColor.Blue)],
    default_bounds⟩

/-- Fixture: a red triple around the origin (a poppable cluster). -/
def wgrid2 : HexGrid :=
  ⟨[(⟨0, 0⟩, BubbleColor.Red), (⟨1, 0⟩, BubbleColor.Red), (⟨0, 1⟩, BubbleColor.Red)],
    default_bounds⟩

/-- Fixture: an anchored bubble in the top row and a detached bubble two rows
below it. -/
def wgrid3 : HexGrid :=
  ⟨[(⟨0, 0⟩, BubbleColor.Red), (⟨0, 2⟩, BubbleColor.Blue)], default_bounds⟩

end Snord

namespace Snord

/-! ## Theorems: danger thresholds (C1) -/

/-- C1 counterexample: the claim says the projectile-path danger threshold and
the continuous/post-descent loss threshold are one fixed value, but
`projectile.rs` uses `SHOOTER_Y + 80 = -130` while `state.rs` uses
`SHOOTER_Y + 40 = -170`; the pixel height `-150` is in the projectile
danger zone yet does not trigger the continuous loss check. -/
theorem danger_thresholds_differ :
    Projectile.DANGER_LINE_Y ≠ LevelState.DANGER_LINE_Y ∧
    landing_in_danger (-150) = true ∧
    collision_in_danger (-150) = true ∧
    lose_check [-150] = false := by
  refine ⟨?_, ?_, ?_, ?_⟩ <;>
    simp [Projectile.DANGER_LINE_Y, LevelState.DANGER_LINE_Y, SHOOTER_Y,
      landing_in_danger, collision_in_danger, lose_check] <;> norm_num

/-- C1 amended: the continuous loss check and the post-descent check share the
single threshold `SHOOTER_Y + 40`, and both projectile-path danger tests share
the single threshold `SHOOTER_Y + 80`, which sits exactly 40 pixels above the
former. -/
theorem danger_thresholds_amended :
    (∀ ys : List ℚ, lose_check ys = descent_danger_check ys) ∧
    (∀ y : ℚ, landing_in_danger y = collision_in_danger y) ∧
    Projectile.DANGER_LINE_Y = LevelState.DANGER_LINE_Y + 40 := by
  refine ⟨fun ys => rfl, fun y => rfl, ?_⟩
  simp [Projectile.DANGER_LINE_Y, LevelState.DANGER_LINE_Y, SHOOTER_Y]
  norm_num

/-! ## Theorems: pixel round-trip (C6) -/

theorem rustRound_intCast (n : ℤ) : HexCoord.rustRound (n : ℚ) = n := by
  have hfl : ∀ m : ℤ, ⌊(m : ℚ) + 1/2⌋ = m := by
    intro m
    rw [Int.floor_eq_iff]
    constructor <;> linarith
  unfold HexCoord.rustRound
  split
  · exact hfl n
  · have h2 := hfl (-n)
    rw [Int.cast_neg] at h2
    rw [h2]
    omega

/-- C6: for every integer hex coordinate (even or odd row, negative rows
included) and every grid origin, `from_pixel_with_offset` exactly inverts
`to_pixel_with_offset` at `HEX_SIZE`. -/
theorem pixel_roundtrip (q r : ℤ) (oy : ℚ) :
    HexCoord.from_pixel_with_offset
      (HexCoord.to_pixel_with_offset ⟨q, r⟩ HEX_SIZE oy) HEX_SIZE oy = ⟨q, r⟩ := by
  unfold HexCoord.to_pixel_with_offset HexCoord.from_pixel_with_offset
  have hy : (oy - (oy - HEX_SIZE * (3/2) * (r : ℚ))) / (HEX_SIZE * (3/2)) = (r : ℚ) := by
    rw [HEX_SIZE]
    field_simp
  simp only [hy, rustRound_intCast]
  have hx : ∀ off : ℚ,
      HEX_SIZE * SQRT_3 * ((q : ℚ) + off) / (HEX_SIZE * SQRT_3) - off = (q : ℚ) := by
    intro off
    rw [HEX_SIZE, SQRT_3]
    field_simp
  by_cases hpar : r % 2 ≠ 0 <;>
    simp only [hpar, if_true, if_false, ite_true, ite_false, hx, rustRound_intCast]

/-! ## Theorems: wall bounce (C7) -/

/-- C7: when the projectile's leading edge (position offset by the collision
radius `HEX_SIZE * 0.9`) has crossed the left (resp. right) wall while moving
toward it, `check_wall_collision` clamps the x position to the wall plus
(resp. minus) the radius and flips the sign of the horizontal velocity,
leaving the y position and the vertical velocity untouched; a tick that
crosses neither wall leaves the state unchanged, so the bounce can recur on
any number of ticks within one flight. -/
theorem wall_bounce_spec (p : ProjState) :
    (p.pos.x - HEX_SIZE * (9/10) < LEFT_WALL → p.vel.x < 0 →
      check_wall_collision p =
        ⟨⟨LEFT_WALL + HEX_SIZE * (9/10), p.pos.y⟩, ⟨-p.vel.x, p.vel.y⟩⟩) ∧
    (RIGHT_WALL < p.pos.x + HEX_SIZE * (9/10) → 0 < p.vel.x →
      check_wall_collision p =
        ⟨⟨RIGHT_WALL - HEX_SIZE * (9/10), p.pos.y⟩, ⟨-p.vel.x, p.vel.y⟩⟩) ∧
    (¬(p.pos.x - HEX_SIZE * (9/10) < LEFT_WALL) →
      ¬(RIGHT_WALL < p.pos.x + HEX_SIZE * (9/10)) →
      check_wall_collision p = p) := by
  refine ⟨?_, ?_, ?_⟩
  · intro hcross hv
    have hnr : ¬(RIGHT_WALL < p.pos.x + HEX_SIZE * (9/10)) := by
      rw [LEFT_WALL] at hcross
      rw [RIGHT_WALL, HEX_SIZE] at *
      norm_num at *
      linarith
    unfold check_wall_collision
    simp only [if_pos hcross, if_neg hnr]
    have : |p.vel.x| = -p.vel.x := abs_of_neg hv
    rw [this]
  · intro hcross hv
    have hnl : ¬(p.pos.x - HEX_SIZE * (9/10) < LEFT_WALL) := by
      rw [RIGHT_WALL] at hcross
      rw [LEFT_WALL, HEX_SIZE] at *
      norm_num at *
      linarith
    unfold check_wall_collision
    simp only [if_neg hnl, if_pos hcross]
    have : |p.vel.x| = p.vel.x := abs_of_pos hv
    rw [this]
  · intro hnl hnr
    unfold check_wall_collision
    simp only [if_neg hnl, if_neg hnr]

/-- C7 witness: a projectile at x = -240 moving left with velocity (-5, 7)
is clamped to the left wall plus the radius and has its horizontal velocity
flipped to 5, keeping the vertical velocity 7. -/
theorem wall_bounce_witness :
    check_wall_collision ⟨⟨-240, 0⟩, ⟨-5, 7⟩⟩ =
      ⟨⟨LEFT_WALL + HEX_SIZE * (9/10), 0⟩, ⟨5, 7⟩⟩ := by
  have h := (wall_bounce_spec ⟨⟨-240, 0⟩, ⟨-5, 7⟩⟩).1 (by norm_num [LEFT_WALL, HEX_SIZE])
    (by norm_num)
  rw [h]
  norm_num

/-! ## Theorems: scoring (C8) -/

/-- C8: a popped cluster scores `count × 10`, plus half again when the combo
modifier is unlocked and the cluster exceeds 3 (4 bubbles: 40 plain, 60 with
combo); a floating removal scores `count × 10 × 2` with no combo bonus; and
score, bubbles_popped and clusters_popped never decrease under either event. -/
theorem score_spec (s : GameScore) (combo : Bool) (count : ℕ) :
    ((update_score_cluster s combo count).score =
      s.score + (if combo ∧ 3 < count
        then count * POINTS_PER_BUBBLE + count * POINTS_PER_BUBBLE / 2
        else count * POINTS_PER_BUBBLE)) ∧
    (update_score_cluster ⟨0, 0, 0⟩ false 4).score = 40 ∧
    (update_score_cluster ⟨0, 0, 0⟩ true 4).score = 60 ∧
    (update_score_floating s count).score =
      s.score + count * POINTS_PER_BUBBLE * FLOATING_BONUS_MULTIPLIER ∧
    s.score ≤ (update_score_cluster s combo count).score ∧
    s.bubbles_popped ≤ (update_score_cluster s combo count).bubbles_popped ∧
    s.clusters_popped ≤ (update_score_cluster s combo count).clusters_popped ∧
    s.score ≤ (update_score_floating s count).score ∧
    s.bubbles_popped ≤ (update_score_floating s count).bubbles_popped ∧
    s.clusters_popped ≤ (update_score_floating s count).clusters_popped := by
  unfold update_score_cluster update_score_floating
  refine ⟨rfl, by decide, by decide, rfl, ?_, ?_, ?_, ?_, ?_, ?_⟩ <;> simp

/-! ## Theorems: nearest empty cell (C5) -/

theorem ring_pass_inl_legal (g : HexGrid) :
    ∀ (ring : List HexCoord) (checked : Finset HexCoord) (next_ring : List HexCoord)
      (c : HexCoord), ring_pass g ring checked next_ring = Sum.inl c →
      legal_free g c = true := by
  intro ring
  induction ring with
  | nil => intro checked next_ring c h; simp [ring_pass] at h
  | cons coord rest ih =>
    intro checked next_ring c h
    rw [ring_pass] at h
    by_cases hc : coord ∈ checked
    · rw [if_pos hc] at h
      exact ih _ _ _ h
    · rw [if_neg hc] at h
      by_cases hl : legal_free g coord
      · simp only [hl, if_true] at h
        cases h
        exact hl
      · simp only [hl, if_false] at h
        exact ih _ _ _ h

theorem closest_empty_cell_loop_some_legal (g : HexGrid) :
    ∀ (fuel : ℕ) (checked : Finset HexCoord) (to_check : List HexCoord)
      (c : HexCoord), closest_empty_cell_loop g fuel checked to_check = some c →
      legal_free g c = true := by
  intro fuel
  induction fuel with
  | zero => intro checked to_check c h; simp [closest_empty_cell_loop] at h
  | succ n ih =>
    intro checked to_check c h
    rw [closest_empty_cell_loop] at h
    by_cases he : to_check.isEmpty
    · rw [if_pos he] at h; cases h
    · rw [if_neg he] at h
      split at h
      · next c' hr =>
        cases h
        exact ring_pass_inl_legal g _ _ _ _ hr
      · next checked' next_ring hr =>
        split at h
        · cases h
        · exact ih _ _ _ h

theorem ring_pass_no_legal (g : HexGrid) (hno : ∀ c, legal_free g c = false) :
    ∀ (ring : List HexCoord) (checked : Finset HexCoord) (next_ring : List HexCoord),
      ∃ p, ring_pass g ring checked next_ring = Sum.inr p := by
  intro ring
  induction ring with
  | nil => intro checked next_ring; exact ⟨_, rfl⟩
  | cons coord rest ih =>
    intro checked next_ring
    rw [ring_pass]
    by_cases hc : coord ∈ checked
    · rw [if_pos hc]; exact ih _ _
    · rw [if_neg hc]
      simp only [hno coord, if_false]
      exact ih _ _

/-- C5: `closest_empty_cell` only ever returns a cell that is unoccupied and
either within bounds or adjacent to an occupied cell, and when no legal free
cell exists at all it returns `none` (the loop is fuel-bounded, standing in
for the source's 1000-cell safety cap, so it always terminates). -/
theorem closest_empty_cell_spec (g : HexGrid) (pos : Vec2) (oy : ℚ) :
    (∀ c, closest_empty_cell g pos oy = some c →
      g.is_occupied c = false ∧
      (g.bounds.contains c || g.is_adjacent_to_bubble c) = true) ∧
    ((∀ c, legal_free g c = false) → closest_empty_cell g pos oy = none) := by
  constructor
  · intro c h
    have hleg : legal_free g c = true := by
      unfold closest_empty_cell at h
      by_cases ht : legal_free g (HexCoord.from_pixel_with_offset pos HEX_SIZE oy)
      · simp only [ht, if_true] at h
        cases h
        exact ht
      · simp only [ht, if_false] at h
        exact closest_empty_cell_loop_some_legal g _ _ _ _ h
    unfold legal_free at hleg
    simp only [Bool.and_eq_true, Bool.not_eq_true'] at hleg
    exact ⟨hleg.2, hleg.1⟩
  · intro hno
    unfold closest_empty_cell
    simp only [hno, if_false]
    have hloop : ∀ (fuel : ℕ) (checked : Finset HexCoord) (to_check : List HexCoord),
        closest_empty_cell_loop g fuel checked to_check = none := by
      intro fuel
      induction fuel with
      | zero => intro checked to_check; rfl
      | succ n ih =>
        intro checked to_check
        rw [closest_empty_cell_loop]
        by_cases he : to_check.isEmpty
        · rw [if_pos he]
        · rw [if_neg he]
          obtain ⟨p, hp⟩ := ring_pass_no_legal g hno to_check checked []
          split
          · next c' hr => rw [hp] at hr; cases hr
          · next checked' next_ring hr =>
            split
            · rfl
            · exact ih _ _
    exact hloop _ _ _

theorem rustRound_zero : HexCoord.rustRound 0 = 0 := by
  have := rustRound_intCast 0
  simpa using this

theorem from_pixel_origin (oy : ℚ) :
    HexCoord.from_pixel_with_offset ⟨0, oy⟩ HEX_SIZE oy = ⟨0, 0⟩ := by
  unfold HexCoord.from_pixel_with_offset
  simp [rustRound_zero]

/-- C5 witness: on an empty grid with the default bounds the search snaps the
pixel position under cell (0,0) to that unoccupied in-bounds cell, and on a
grid whose bounds are empty and which holds no bubble (so no cell at all is
legal) the search returns `none`. -/
theorem closest_empty_cell_witness :
    (HexGrid.is_occupied ⟨[], default_bounds⟩ ⟨0, 0⟩ = false ∧
      (GridBounds.contains default_bounds ⟨0, 0⟩ ||
        HexGrid.is_adjacent_to_bubble ⟨[], default_bounds⟩ ⟨0, 0⟩) = true) ∧
    closest_empty_cell ⟨[], ⟨1, 0, 1, 0⟩⟩ ⟨0, 0⟩ 0 = none := by
  constructor
  · refine (closest_empty_cell_spec ⟨[], default_bounds⟩ ⟨0, 0⟩ 0).1 ⟨0, 0⟩ ?_
    have hleg : legal_free ⟨[], default_bounds⟩ ⟨0, 0⟩ = true := by decide
    simp only [closest_empty_cell, from_pixel_origin, hleg, if_true]
  · refine (closest_empty_cell_spec ⟨[], ⟨1, 0, 1, 0⟩⟩ ⟨0, 0⟩ 0).2 ?_
    intro c
    simp [legal_free, GridBounds.contains, HexGrid.is_adjacent_to_bubble,
      HexGrid.is_occupied, HexGrid.get]
    omega

/-! ## Helper lemmas: neighbors, occupancy, removal, top row -/

theorem neighbors_length (c : HexCoord) : c.neighbors.length = 6 := by
  unfold HexCoord.neighbors
  split <;> rfl

theorem neighbors_nodup (c : HexCoord) : c.neighbors.Nodup := by
  unfold HexCoord.neighbors
  split <;> simp [List.nodup_cons, HexCoord.mk.injEq] <;> omega

theorem isSome_map_snd (o : Option (HexCoord × BubbleColor)) :
    (o.map Prod.snd).isSome = o.isSome := by
  cases o <;> rfl

theorem mem_coords_iff (g : HexGrid) (c : HexCoord) :
    c ∈ g.coords ↔ ∃ p, p ∈ g.bubbles ∧ p.1 = c := by
  unfold HexGrid.coords
  simp [List.mem_map]

theorem is_occupied_iff_mem_coords (g : HexGrid) (c : HexCoord) :
    g.is_occupied c = true ↔ c ∈ g.coords := by
  unfold HexGrid.is_occupied HexGrid.get
  rw [isSome_map_snd, mem_coords_iff]
  simp [List.find?_isSome]

theorem get_some_mem_coords (g : HexGrid) (c : HexCoord) (col : BubbleColor)
    (h : g.get c = some col) : c ∈ g.coords := by
  rw [← is_occupied_iff_mem_coords]
  unfold HexGrid.is_occupied
  rw [h]
  rfl

theorem remove_occupied (g : HexGrid) (d c : HexCoord) :
    (g.remove d).is_occupied c = true ↔ (g.is_occupied c = true ∧ c ≠ d) := by
  unfold HexGrid.remove HexGrid.is_occupied HexGrid.get
  rw [isSome_map_snd, isSome_map_snd]
  simp only [List.find?_isSome, List.mem_filter, decide_eq_true_eq]
  constructor
  · rintro ⟨p, ⟨hp, hne⟩, hc⟩
    exact ⟨⟨p, hp, hc⟩, hc ▸ hne⟩
  · rintro ⟨⟨p, hp, hc⟩, hne⟩
    exact ⟨p, ⟨hp, hc ▸ hne⟩, hc⟩

theorem foldl_remove_occupied :
    ∀ (l : List HexCoord) (g : HexGrid) (c : HexCoord),
      ((l.foldl (fun acc x => acc.remove x) g).is_occupied c = true) ↔
        (g.is_occupied c = true ∧ c ∉ l) := by
  intro l
  induction l with
  | nil => intro g c; simp
  | cons d t ih =>
    intro g c
    rw [List.foldl_cons, ih, remove_occupied]
    simp only [List.mem_cons]
    tauto

theorem is_empty_false_of_occupied (g : HexGrid) (c : HexCoord)
    (h : g.is_occupied c = true) : g.is_empty = false := by
  rw [is_occupied_iff_mem_coords, mem_coords_iff] at h
  obtain ⟨p, hp, -⟩ := h
  unfold HexGrid.is_empty
  rw [List.isEmpty_eq_false]
  exact List.ne_nil_of_mem hp

theorem top_row_subset_coords (g : HexGrid) :
    ∀ c ∈ g.top_row_coords, c ∈ g.coords := by
  intro c hc
  unfold HexGrid.top_row_coords at hc
  rcases hm : (g.bubbles.map (fun p => p.1.r)).min? with _ | m
  · rw [hm] at hc; cases hc
  · rw [hm] at hc
    exact (List.mem_filter.1 hc).1

theorem top_row_occupied (g : HexGrid) :
    ∀ c ∈ g.top_row_coords, g.is_occupied c = true := by
  intro c hc
  rw [is_occupied_iff_mem_coords]
  exact top_row_subset_coords g c hc

theorem top_row_nonempty (g : HexGrid) (h : g.is_empty = false) :
    ∃ c, c ∈ g.top_row_coords := by
  have hbne : g.bubbles ≠ [] := by
    unfold HexGrid.is_empty at h
    exact List.isEmpty_eq_false.1 h
  have hne : (g.bubbles.map (fun p => p.1.r)) ≠ [] := by
    simpa using hbne
  rcases hm : (g.bubbles.map (fun p => p.1.r)).min? with _ | m
  · rw [List.min?_eq_none_iff] at hm
    exact absurd hm hne
  · have hmem : m ∈ g.bubbles.map (fun p => p.1.r) :=
      List.min?_mem (fun a b => min_choice a b) hm
    rw [List.mem_map] at hmem
    obtain ⟨p, hp, hr⟩ := hmem
    refine ⟨p.1, ?_⟩
    unfold HexGrid.top_row_coords
    rw [hm]
    rw [List.mem_filter]
    constructor
    · rw [mem_coords_iff]
      exact ⟨p, hp, rfl⟩
    · simp [hr]

/-! ## Helper lemmas: the cluster universe and the BFS measure -/

theorem mem_clusterUniverse (g : HexGrid) (c n : HexCoord)
    (hc : c ∈ g.coords) (hn : n ∈ c.neighbors) : n ∈ clusterUniverse g := by
  rw [mem_coords_iff] at hc
  obtain ⟨p, hp, hpc⟩ := hc
  unfold clusterUniverse
  have key : ∀ l : List (HexCoord × BubbleColor), p ∈ l →
      n ∈ l.foldr (fun (p : HexCoord × BubbleColor) (acc : Finset HexCoord) =>
        p.1.neighbors.toFinset ∪ acc) ∅ := by
    intro l
    induction l with
    | nil => intro hmem; cases hmem
    | cons q t ih =>
      intro hmem
      rw [List.foldr_cons, Finset.mem_union]
      rcases List.mem_cons.1 hmem with h | h
      · left
        rw [List.mem_toFinset, ← h, hpc]
        exact hn
      · right
        exact ih h
  exact key g.bubbles hp

theorem clusterUniverse_card_le (g : HexGrid) :
    (clusterUniverse g).card ≤ 6 * g.bubbles.length := by
  unfold clusterUniverse
  have key : ∀ l : List (HexCoord × BubbleColor),
      (l.foldr (fun (p : HexCoord × BubbleColor) (acc : Finset HexCoord) =>
        p.1.neighbors.toFinset ∪ acc) ∅).card ≤ 6 * l.length := by
    intro l
    induction l with
    | nil => simp
    | cons q t ih =>
      rw [List.foldr_cons, List.length_cons]
      have h1 : q.1.neighbors.toFinset.card ≤ 6 := by
        have h2 := q.1.neighbors.toFinset_card_le
        rw [neighbors_length q.1] at h2
        exact h2
      have h3 := Finset.card_union_le q.1.neighbors.toFinset
        (t.foldr (fun (p : HexCoord × BubbleColor) (acc : Finset HexCoord) =>
          p.1.neighbors.toFinset ∪ acc) ∅)
      omega
  exact key g.bubbles

/-- The measure step: inserting a fresh, nodup batch drawn from the universe
into the visited set shrinks the remaining universe by exactly the batch
size. -/
theorem measure_step (U visited : Finset HexCoord) (fresh : List HexCoord)
    (hnd : fresh.Nodup) (hU : ∀ x ∈ fresh, x ∈ U)
    (hdis : ∀ x ∈ fresh, x ∉ visited) :
    (U \ (visited ∪ fresh.toFinset)).card + fresh.length = (U \ visited).card := by
  have hsub : fresh.toFinset ⊆ U \ visited := by
    intro x hx
    rw [List.mem_toFinset] at hx
    exact Finset.mem_sdiff.2 ⟨hU x hx, hdis x hx⟩
  have heq : U \ (visited ∪ fresh.toFinset) = (U \ visited) \ fresh.toFinset := by
    ext x
    simp only [Finset.mem_sdiff, Finset.mem_union]
    tauto
  rw [heq, Finset.card_sdiff hsub, List.toFinset_card_of_nodup hnd]
  have hle : fresh.toFinset.card ≤ (U \ visited).card := Finset.card_le_card hsub
  rw [List.toFinset_card_of_nodup hnd] at hle
  omega

/-! ## Theorems: win condition (C9) -/

/-- C9: the win condition fires exactly when the grid is empty and at least
one cluster has been popped; in particular the empty grid at game start with
zero clusters popped does not win. -/
theorem win_condition_spec (g : HexGrid) (s : GameScore) :
    (check_win_condition g s = true ↔
      (g.is_empty = true ∧ 0 < s.clusters_popped)) ∧
    check_win_condition ⟨[], default_bounds⟩ ⟨0, 0, 0⟩ = false := by
  constructor
  · unfold check_win_condition
    simp [and_comm]
  · decide

/-! ## Cluster BFS: soundness, monotonicity, completeness -/

theorem find_cluster_aux_mem (g : HexGrid) (target : BubbleColor) :
    ∀ (fuel : ℕ) (cluster : List HexCoord) (visited : Finset HexCoord)
      (queue : List HexCoord) (c : HexCoord),
      c ∈ find_cluster_aux g target fuel cluster visited queue →
      c ∈ cluster ∨ (g.get c = some target ∧
        ∃ a, a ∈ queue ∧ Relation.ReflTransGen (clusterStep g target) a c) := by
  intro fuel
  induction fuel with
  | zero =>
    intro cluster visited queue c h
    rw [find_cluster_aux] at h
    exact Or.inl h
  | succ n ih =>
    intro cluster visited queue c h
    cases queue with
    | nil =>
      rw [find_cluster_aux] at h
      exact Or.inl h
    | cons coord rest =>
      rw [find_cluster_aux] at h
      split at h
      · rename_i col hcol
        split at h
        · rename_i hcoleq
          subst hcoleq
          rcases ih _ _ _ _ h with h1 | ⟨hg, a, ha, hr⟩
          · rcases List.mem_append.1 h1 with h2 | h2
            · exact Or.inl h2
            · have hc : c = coord := by simpa using h2
              subst hc
              exact Or.inr ⟨hcol, c, List.mem_cons_self _ _,
                Relation.ReflTransGen.refl⟩
          · rcases List.mem_append.1 ha with h2 | h2
            · exact Or.inr ⟨hg, a, List.mem_cons_of_mem _ h2, hr⟩
            · have han : a ∈ coord.neighbors := (List.mem_filter.1 h2).1
              exact Or.inr ⟨hg, coord, List.mem_cons_self _ _,
                Relation.ReflTransGen.head ⟨hcol, han⟩ hr⟩
        · rename_i hcoleq
          rcases ih _ _ _ _ h with h1 | ⟨hg, a, ha, hr⟩
          · exact Or.inl h1
          · exact Or.inr ⟨hg, a, List.mem_cons_of_mem _ ha, hr⟩
      · rename_i hcol
        rcases ih _ _ _ _ h with h1 | ⟨hg, a, ha, hr⟩
        · exact Or.inl h1
        · exact Or.inr ⟨hg, a, List.mem_cons_of_mem _ ha, hr⟩

theorem find_cluster_aux_superset (g : HexGrid) (target : BubbleColor) :
    ∀ (fuel : ℕ) (cluster : List HexCoord) (visited : Finset HexCoord)
      (queue : List HexCoord) (c : HexCoord),
      c ∈ cluster → c ∈ find_cluster_aux g target fuel cluster visited queue := by
  intro fuel
  induction fuel with
  | zero =>
    intro cluster visited queue c h
    rw [find_cluster_aux]
    exact h
  | succ n ih =>
    intro cluster visited queue c h
    cases queue with
    | nil =>
      rw [find_cluster_aux]
      exact h
    | cons coord rest =>
      rw [find_cluster_aux]
      split
      · split
        · exact ih _ _ _ _ (List.mem_append_left _ h)
        · exact ih _ _ _ _ h
      · exact ih _ _ _ _ h

theorem find_cluster_aux_complete (g : HexGrid) (target : BubbleColor) :
    ∀ (fuel : ℕ) (cluster : List HexCoord) (visited : Finset HexCoord)
      (queue : List HexCoord),
      (∀ x ∈ queue, x ∈ visited) →
      (∀ x, g.get x = some target → x ∈ visited → x ∈ cluster ∨ x ∈ queue) →
      (∀ x ∈ cluster, g.get x = some target → ∀ n ∈ x.neighbors, n ∈ visited) →
      7 * ((clusterUniverse g \ visited).card) + queue.length ≤ fuel →
      ∀ c, g.get c = some target →
        (∃ a, (a ∈ queue ∨ a ∈ cluster) ∧
          Relation.ReflTransGen (clusterStep g target) a c) →
        c ∈ find_cluster_aux g target fuel cluster visited queue := by
  intro fuel
  induction fuel with
  | zero =>
    intro cluster visited queue h1 h2 h3 hfuel c hc ⟨a, ha, hr⟩
    have hq : queue = [] := by
      cases queue with
      | nil => rfl
      | cons x t => simp at hfuel
    subst hq
    rw [find_cluster_aux]
    have ha' : a ∈ cluster := by
      rcases ha with h | h
      · cases h
      · exact h
    have key : ∀ c', Relation.ReflTransGen (clusterStep g target) a c' →
        g.get c' = some target → c' ∈ cluster := by
      intro c' hr'
      induction hr' with
      | refl => intro _; exact ha'
      | tail hab hbc ihr =>
        rename_i b c''
        intro hgc
        have hb : b ∈ cluster := ihr hbc.1
        have hcv : c'' ∈ visited := h3 b hb hbc.1 c'' hbc.2
        rcases h2 c'' hgc hcv with h | h
        · exact h
        · cases h
    exact key c hr hc
  | succ n ih =>
    intro cluster visited queue h1 h2 h3 hfuel c hc hreach
    cases queue with
    | nil =>
      obtain ⟨a, ha, hr⟩ := hreach
      rw [find_cluster_aux]
      have ha' : a ∈ cluster := by
        rcases ha with h | h
        · cases h
        · exact h
      have key : ∀ c', Relation.ReflTransGen (clusterStep g target) a c' →
          g.get c' = some target → c' ∈ cluster := by
        intro c' hr'
        induction hr' with
        | refl => intro _; exact ha'
        | tail hab hbc ihr =>
          rename_i b c''
          intro hgc
          have hb : b ∈ cluster := ihr hbc.1
          have hcv : c'' ∈ visited := h3 b hb hbc.1 c'' hbc.2
          rcases h2 c'' hgc hcv with h | h
          · exact h
          · cases h
      exact key c hr hc
    | cons coord rest =>
      obtain ⟨a, ha, hr⟩ := hreach
      rw [find_cluster_aux]
      split
      · rename_i col hcol
        split
        · rename_i hcoleq
          subst hcoleq
          -- expansion branch
          apply ih
          · -- queue ⊆ visited
            intro x hx
            rcases List.mem_append.1 hx with h | h
            · exact Finset.mem_union_left _ (h1 x (List.mem_cons_of_mem _ h))
            · exact Finset.mem_union_right _ (List.mem_toFinset.2 h)
          · -- discovered good cells are finished or pending
            intro x hgx hxv
            rcases Finset.mem_union.1 hxv with h | h
            · rcases h2 x hgx h with h' | h'
              · exact Or.inl (List.mem_append_left _ h')
              · rcases List.mem_cons.1 h' with h'' | h''
                · exact Or.inl (List.mem_append_right _ (by simp [h'']))
                · exact Or.inr (List.mem_append_left _ h'')
            · exact Or.inr (List.mem_append_right _ (List.mem_toFinset.1 h))
          · -- finished cells fully expanded
            intro x hx hgx m hm
            rcases List.mem_append.1 hx with h | h
            · exact Finset.mem_union_left _ (h3 x h hgx m hm)
            · have hxc : x = coord := by simpa using h
              subst hxc
              by_cases hmv : m ∈ visited
              · exact Finset.mem_union_left _ hmv
              · refine Finset.mem_union_right _ (List.mem_toFinset.2 ?_)
                rw [List.mem_filter]
                exact ⟨hm, by simpa using hmv⟩
          · -- fuel still dominates the measure
            have hfresh := measure_step (clusterUniverse g) visited
              (coord.neighbors.filter (fun n => decide (n ∉ visited)))
              (List.Nodup.filter _ (neighbors_nodup coord))
              (fun x hx => mem_clusterUniverse g coord x
                (get_some_mem_coords g coord _ hcol) (List.mem_filter.1 hx).1)
              (fun x hx => by simpa using (List.mem_filter.1 hx).2)
            rw [List.length_append]
            simp only [List.length_cons] at hfuel
            omega
          · exact hc
          · -- transport the reachability premise
            refine ⟨a, ?_, hr⟩
            rcases ha with h | h
            · rcases List.mem_cons.1 h with h' | h'
              · exact Or.inr (List.mem_append_right _ (by simp [h']))
              · exact Or.inl (List.mem_append_left _ h')
            · exact Or.inr (List.mem_append_left _ h)
        · rename_i hcoleq
          -- coord holds the wrong color: it cannot begin any good chain
          have hcoordbad : ¬ (g.get coord = some target) := by
            rw [hcol]
            intro h
            exact hcoleq (Option.some.inj h)
          apply ih
          · intro x hx; exact h1 x (List.mem_cons_of_mem _ hx)
          · intro x hgx hxv
            rcases h2 x hgx hxv with h | h
            · exact Or.inl h
            · rcases List.mem_cons.1 h with h' | h'
              · exact absurd (h' ▸ hgx) hcoordbad
              · exact Or.inr h'
          · exact h3
          · simp only [List.length_cons] at hfuel
            omega
          · exact hc
          · refine ⟨a, ?_, hr⟩
            rcases ha with h | h
            · rcases List.mem_cons.1 h with h' | h'
              · subst h'
                rcases hr.cases_head with h'' | ⟨b, hstep, -⟩
                · exact absurd (h'' ▸ hc) hcoordbad
                · exact absurd hstep.1 hcoordbad
              · exact Or.inl h'
            · exact Or.inr h
      · rename_i hcol
        have hcoordbad : ¬ (g.get coord = some target) := by
          rw [hcol]
          intro h
          cases h
        apply ih
        · intro x hx; exact h1 x (List.mem_cons_of_mem _ hx)
        · intro x hgx hxv
          rcases h2 x hgx hxv with h | h
          · exact Or.inl h
          · rcases List.mem_cons.1 h with h' | h'
            · exact absurd (h' ▸ hgx) hcoordbad
            · exact Or.inr h'
        · exact h3
        · simp only [List.length_cons] at hfuel
          omega
        · exact hc
        · refine ⟨a, ?_, hr⟩
          rcases ha with h | h
          · rcases List.mem_cons.1 h with h' | h'
            · subst h'
              rcases hr.cases_head with h'' | ⟨b, hstep, -⟩
              · exact absurd (h'' ▸ hc) hcoordbad
              · exact absurd hstep.1 hcoordbad
            · exact Or.inl h'
          · exact Or.inr h

/-! ## Theorems: same-color cluster search (C2) and cluster popping (C3) -/

theorem find_cluster_mem_iff (g : HexGrid) (start : HexCoord) (target : BubbleColor)
    (c : HexCoord) :
    c ∈ find_cluster g start target ↔ (c = start ∨ clusterReachable g target start c) := by
  unfold find_cluster
  constructor
  · intro h
    rcases find_cluster_aux_mem g target _ _ _ _ _ h with h1 | ⟨hg, a, ha, hr⟩
    · left
      simpa using h1
    · right
      exact ⟨hg, a, (List.mem_filter.1 ha).1, hr⟩
  · intro h
    rcases h with h | ⟨hg, a, ha, hr⟩
    · subst h
      exact find_cluster_aux_superset g target _ _ _ _ _ (by simp)
    · apply find_cluster_aux_complete
      · intro x hx
        exact Finset.mem_insert_of_mem (List.mem_toFinset.2 hx)
      · intro x hgx hxv
        rcases Finset.mem_insert.1 hxv with h' | h'
        · exact Or.inl (by simp [h'])
        · exact Or.inr (List.mem_toFinset.1 h')
      · intro x hx hgx n hn
        have hxs : x = start := by simpa using hx
        rw [hxs] at hn
        by_cases hns : n = start
        · subst hns
          exact Finset.mem_insert_self _ _
        · refine Finset.mem_insert_of_mem (List.mem_toFinset.2 ?_)
          rw [List.mem_filter]
          exact ⟨hn, by simp [hns]⟩
      · have h1 : ((clusterUniverse g) \
            (insert start (start.neighbors.filter
              (fun n => decide (n ∉ ({start} : Finset HexCoord)))).toFinset)).card ≤
            (clusterUniverse g).card :=
          Finset.card_le_card (Finset.sdiff_subset)
        have h2 := clusterUniverse_card_le g
        have h3 : (start.neighbors.filter
            (fun n => decide (n ∉ ({start} : Finset HexCoord)))).length ≤ 6 := by
          have h4 := List.length_filter_le
            (fun n => decide (n ∉ ({start} : Finset HexCoord))) start.neighbors
          rw [neighbors_length] at h4
          exact h4
        unfold CLUSTER_FUEL
        omega
      · exact hg
      · refine ⟨a, ?_, hr⟩
        by_cases has : a = start
        · subst has
          exact Or.inr (by simp)
        · left
          rw [List.mem_filter]
          exact ⟨ha, by simp [has]⟩

/-- C2: the cluster search returns the start coordinate unconditionally, plus
exactly those coordinates reachable from the start through chains of
neighbors that are grid-occupied with the target color; any member other
than the start holds the target color (so a differently-colored bubble is
never included, adjacent or not); and the result always has size ≥ 1. -/
theorem find_cluster_spec (g : HexGrid) (start : HexCoord) (target : BubbleColor) :
    (∀ c, c ∈ find_cluster g start target ↔
      (c = start ∨ clusterReachable g target start c)) ∧
    (∀ c, c ∈ find_cluster g start target → c = start ∨ g.get c = some target) ∧
    1 ≤ (find_cluster g start target).length := by
  refine ⟨fun c => find_cluster_mem_iff g start target c, ?_, ?_⟩
  · intro c hc
    rcases (find_cluster_mem_iff g start target c).1 hc with h | h
    · exact Or.inl h
    · exact Or.inr h.1
  · have hstart : start ∈ find_cluster g start target :=
      (find_cluster_mem_iff g start target start).2 (Or.inl rfl)
    exact List.length_pos.2 (List.ne_nil_of_mem hstart)

/-- C2 witness: in the fixture grid, the red bubble at (1,0) found by the
search from the landing cell (0,0) either is the start or holds the target
color (here the latter). -/
theorem find_cluster_witness :
    (⟨1, 0⟩ : HexCoord) = ⟨0, 0⟩ ∨ HexGrid.get wgrid1 ⟨1, 0⟩ = some BubbleColor.Red :=
  (find_cluster_spec wgrid1 ⟨0, 0⟩ BubbleColor.Red).2.1 ⟨1, 0⟩ (by decide)

/-- C3: on a landing event, when the found cluster reaches the match
threshold 3 exactly its member cells are removed from the grid and exactly
one popped event `{coords, color, count = cluster size}` is emitted;
otherwise the grid is unchanged and no event fires. -/
theorem detect_clusters_spec (g : HexGrid) (coord : HexCoord) (color : BubbleColor) :
    (MIN_CLUSTER_SIZE ≤ (find_cluster g coord color).length →
      (detect_clusters g coord color).event =
        some (find_cluster g coord color, color, (find_cluster g coord color).length) ∧
      (∀ c, (detect_clusters g coord color).grid.is_occupied c = true ↔
        (g.is_occupied c = true ∧ c ∉ find_cluster g coord color))) ∧
    ((find_cluster g coord color).length < MIN_CLUSTER_SIZE →
      (detect_clusters g coord color).grid = g ∧
      (detect_clusters g coord color).event = none) := by
  constructor
  · intro hge
    unfold detect_clusters
    rw [if_pos hge]
    exact ⟨rfl, fun c => foldl_remove_occupied _ _ _⟩
  · intro hlt
    unfold detect_clusters
    rw [if_neg (by omega)]
    exact ⟨rfl, rfl⟩

/-- C3 witness: popping the red triple fixture removes exactly the three
cluster cells and emits the one popped event with count 3. -/
theorem detect_clusters_witness :
    (detect_clusters wgrid2 ⟨0, 0⟩ BubbleColor.Red).event =
      some (find_cluster wgrid2 ⟨0, 0⟩ BubbleColor.Red, BubbleColor.Red,
        (find_cluster wgrid2 ⟨0, 0⟩ BubbleColor.Red).length) ∧
    (∀ c, (detect_clusters wgrid2 ⟨0, 0⟩ BubbleColor.Red).grid.is_occupied c = true ↔
      (HexGrid.is_occupied wgrid2 c = true ∧
        c ∉ find_cluster wgrid2 ⟨0, 0⟩ BubbleColor.Red)) :=
  (detect_clusters_spec wgrid2 ⟨0, 0⟩ BubbleColor.Red).1 (by decide)

/-! ## Anchored BFS: soundness, monotonicity, completeness -/

theorem find_anchored_aux_mem (g : HexGrid) :
    ∀ (fuel : ℕ) (anchored : Finset HexCoord) (queue : List HexCoord) (c : HexCoord),
      c ∈ find_anchored_aux g fuel anchored queue →
      c ∈ anchored ∨ (g.is_occupied c = true ∧
        ∃ a, a ∈ queue ∧ Relation.ReflTransGen (anchorStep g) a c) := by
  intro fuel
  induction fuel with
  | zero =>
    intro anchored queue c h
    rw [find_anchored_aux] at h
    exact Or.inl h
  | succ n ih =>
    intro anchored queue c h
    cases queue with
    | nil =>
      rw [find_anchored_aux] at h
      exact Or.inl h
    | cons coord rest =>
      rw [find_anchored_aux] at h
      rcases ih _ _ _ h with h1 | ⟨hocc, a, ha, hr⟩
      · rcases Finset.mem_union.1 h1 with h2 | h2
        · exact Or.inl h2
        · have h3 := List.mem_toFinset.1 h2
          rw [List.mem_filter, Bool.and_eq_true] at h3
          exact Or.inr ⟨h3.2.2, coord, List.mem_cons_self _ _,
            Relation.ReflTransGen.single ⟨h3.1, h3.2.2⟩⟩
      · rcases List.mem_append.1 ha with h2 | h2
        · exact Or.inr ⟨hocc, a, List.mem_cons_of_mem _ h2, hr⟩
        · rw [List.mem_filter, Bool.and_eq_true] at h2
          exact Or.inr ⟨hocc, coord, List.mem_cons_self _ _,
            Relation.ReflTransGen.head ⟨h2.1, h2.2.2⟩ hr⟩

theorem find_anchored_aux_superset (g : HexGrid) :
    ∀ (fuel : ℕ) (anchored : Finset HexCoord) (queue : List HexCoord) (c : HexCoord),
      c ∈ anchored → c ∈ find_anchored_aux g fuel anchored queue := by
  intro fuel
  induction fuel with
  | zero =>
    intro anchored queue c h
    rw [find_anchored_aux]
    exact h
  | succ n ih =>
    intro anchored queue c h
    cases queue with
    | nil =>
      rw [find_anchored_aux]
      exact h
    | cons coord rest =>
      rw [find_anchored_aux]
      exact ih _ _ _ (Finset.mem_union_left _ h)

theorem find_anchored_aux_complete (g : HexGrid) :
    ∀ (fuel : ℕ) (anchored : Finset HexCoord) (queue : List HexCoord),
      (∀ x ∈ queue, x ∈ anchored) →
      (∀ x ∈ anchored, x ∈ queue ∨
        ∀ n ∈ x.neighbors, g.is_occupied n = true → n ∈ anchored) →
      7 * ((g.coords.toFinset \ anchored).card) + queue.length ≤ fuel →
      ∀ a c, a ∈ anchored → Relation.ReflTransGen (anchorStep g) a c →
        c ∈ find_anchored_aux g fuel anchored queue := by
  intro fuel
  induction fuel with
  | zero =>
    intro anchored queue h1 h2 hfuel a c ha hr
    have hq : queue = [] := by
      cases queue with
      | nil => rfl
      | cons x t => simp at hfuel
    subst hq
    rw [find_anchored_aux]
    induction hr with
    | refl => exact ha
    | tail hab hbc ihr =>
      rename_i b c'
      have hb : b ∈ anchored := ihr
      rcases h2 b hb with h | h
      · cases h
      · exact h c' hbc.1 hbc.2
  | succ n ih =>
    intro anchored queue h1 h2 hfuel a c ha hr
    cases queue with
    | nil =>
      rw [find_anchored_aux]
      induction hr with
      | refl => exact ha
      | tail hab hbc ihr =>
        rename_i b c'
        have hb : b ∈ anchored := ihr
        rcases h2 b hb with h | h
        · cases h
        · exact h c' hbc.1 hbc.2
    | cons coord rest =>
      rw [find_anchored_aux]
      refine ih _ _ ?_ ?_ ?_ a c (Finset.mem_union_left _ ha) hr
      · intro x hx
        rcases List.mem_append.1 hx with h | h
        · exact Finset.mem_union_left _ (h1 x (List.mem_cons_of_mem _ h))
        · exact Finset.mem_union_right _ (List.mem_toFinset.2 h)
      · intro x hx
        rcases Finset.mem_union.1 hx with h | h
        · rcases h2 x h with h' | h'
          · rcases List.mem_cons.1 h' with h'' | h''
            · subst h''
              right
              intro m hm hom
              by_cases hmv : m ∈ anchored
              · exact Finset.mem_union_left _ hmv
              · refine Finset.mem_union_right _ (List.mem_toFinset.2 ?_)
                rw [List.mem_filter, Bool.and_eq_true]
                exact ⟨hm, by simpa using hmv, hom⟩
            · exact Or.inl (List.mem_append_left _ h'')
          · right
            intro m hm hom
            exact Finset.mem_union_left _ (h' m hm hom)
        · exact Or.inl (List.mem_append_right _ (List.mem_toFinset.1 h))
      · have hfresh := measure_step g.coords.toFinset anchored
          (coord.neighbors.filter (fun n => decide (n ∉ anchored) && g.is_occupied n))
          (List.Nodup.filter _ (neighbors_nodup coord))
          (fun x hx => by
            rw [List.mem_filter, Bool.and_eq_true] at hx
            exact List.mem_toFinset.2 ((is_occupied_iff_mem_coords g x).1 hx.2.2))
          (fun x hx => by
            rw [List.mem_filter, Bool.and_eq_true] at hx
            simpa using hx.2.1)
        rw [List.length_append]
        simp only [List.length_cons] at hfuel
        omega

theorem top_row_length_le (g : HexGrid) :
    g.top_row_coords.length ≤ g.bubbles.length := by
  unfold HexGrid.top_row_coords
  rcases hm : (g.bubbles.map (fun p => p.1.r)).min? with _ | m
  · rw [hm]
    show ([] : List HexCoord).length ≤ g.bubbles.length
    simp
  · rw [hm]
    show (g.coords.filter (fun c => decide (c.r = m))).length ≤ g.bubbles.length
    have h1 := List.length_filter_le (fun c => decide (c.r = m)) g.coords
    have h2 : g.coords.length = g.bubbles.length := by
      unfold HexGrid.coords
      rw [List.length_map]
    omega

theorem find_anchored_mem_iff (g : HexGrid) (c : HexCoord) :
    c ∈ find_anchored_bubbles g ↔ anchoredSpec g c := by
  unfold find_anchored_bubbles
  constructor
  · intro h
    rcases find_anchored_aux_mem g _ _ _ _ h with h1 | ⟨hocc, a, ha, hr⟩
    · exact ⟨c, List.mem_toFinset.1 h1, Relation.ReflTransGen.refl⟩
    · exact ⟨a, ha, hr⟩
  · rintro ⟨s, hs, hr⟩
    refine find_anchored_aux_complete g _ _ _ ?_ ?_ ?_ s c (List.mem_toFinset.2 hs) hr
    · intro x hx
      exact List.mem_toFinset.2 hx
    · intro x hx
      exact Or.inl (List.mem_toFinset.1 hx)
    · have h1 : (g.coords.toFinset \ g.top_row_coords.toFinset).card ≤
          g.coords.toFinset.card :=
        Finset.card_le_card Finset.sdiff_subset
      have h2 : g.coords.toFinset.card ≤ g.coords.length := g.coords.toFinset_card_le
      have h3 : g.coords.length = g.bubbles.length := by
        unfold HexGrid.coords
        rw [List.length_map]
      have h4 := top_row_length_le g
      unfold ANCHOR_FUEL
      omega

/-! ## Theorems: floating-bubble removal (C4) and top-row anchoring (C10) -/

theorem anchored_occupied (g : HexGrid) (c : HexCoord)
    (h : c ∈ find_anchored_bubbles g) : g.is_occupied c = true := by
  rw [find_anchored_mem_iff] at h
  obtain ⟨s, hs, hr⟩ := h
  rcases hr.cases_tail with h1 | ⟨b, hab, hbc⟩
  · rw [h1]
    exact top_row_occupied g s hs
  · exact hbc.2

theorem mem_floating_iff (g : HexGrid) (c : HexCoord) :
    c ∈ floating_list g ↔
      (g.is_occupied c = true ∧ c ∉ find_anchored_bubbles g) := by
  unfold floating_list
  rw [List.mem_filter, is_occupied_iff_mem_coords]
  simp

theorem detect_floating_grid_occupied (g : HexGrid) (c : HexCoord) :
    (detect_floating_bubbles g).grid.is_occupied c = true ↔
      (g.is_occupied c = true ∧ c ∉ floating_list g) := by
  unfold detect_floating_bubbles
  by_cases hfe : (floating_list g).isEmpty = true
  · rw [if_pos hfe]
    have h0 : floating_list g = [] := by
      rwa [List.isEmpty_iff] at hfe
    simp [h0]
  · rw [if_neg hfe]
    exact foldl_remove_occupied _ _ _

/-- C4: the anchored set computed by `find_anchored_bubbles` is exactly the
BFS closure over occupied neighbors seeded by all occupied minimum-row
coordinates, and the floating pass removes from the grid exactly the
occupied coordinates outside that set (every anchored bubble remains),
reporting the removed cells and their count in one event emitted exactly
when the removed set is non-empty.  The hypothesis says the grid's keys are
distinct, as for any Rust `HashMap`. -/
theorem detect_floating_spec (g : HexGrid) (hnd : g.coords.Nodup) :
    (∀ c, c ∈ find_anchored_bubbles g ↔ anchoredSpec g c) ∧
    (∀ c, (detect_floating_bubbles g).grid.is_occupied c = true ↔
      (g.is_occupied c = true ∧ c ∈ find_anchored_bubbles g)) ∧
    ((detect_floating_bubbles g).event = none ↔
      (∀ c, g.is_occupied c = true → c ∈ find_anchored_bubbles g)) ∧
    (∀ l n, (detect_floating_bubbles g).event = some (l, n) →
      (∀ c, c ∈ l ↔ (g.is_occupied c = true ∧ c ∉ find_anchored_bubbles g)) ∧
      n = l.length ∧ l.Nodup ∧ l ≠ []) := by
  refine ⟨fun c => find_anchored_mem_iff g c, ?_, ?_, ?_⟩
  · intro c
    rw [detect_floating_grid_occupied, mem_floating_iff]
    constructor
    · rintro ⟨hocc, hnf⟩
      refine ⟨hocc, ?_⟩
      by_contra hna
      exact hnf ⟨hocc, hna⟩
    · rintro ⟨hocc, hanch⟩
      exact ⟨hocc, fun hf => hf.2 hanch⟩
  · constructor
    · intro hev c hocc
      by_contra hna
      have hmem : c ∈ floating_list g := (mem_floating_iff g c).2 ⟨hocc, hna⟩
      have hne : ¬ (floating_list g).isEmpty = true := by
        rw [List.isEmpty_iff]
        exact fun h0 => by rw [h0] at hmem; cases hmem
      unfold detect_floating_bubbles at hev
      rw [if_neg hne] at hev
      cases hev
    · intro hall
      have h0 : floating_list g = [] := by
        rcases hl : floating_list g with _ | ⟨x, t⟩
        · rfl
        · have hx : x ∈ floating_list g := by rw [hl]; exact List.mem_cons_self _ _
          rw [mem_floating_iff] at hx
          exact absurd (hall x hx.1) hx.2
      unfold detect_floating_bubbles
      rw [if_pos (by rw [List.isEmpty_iff]; exact h0)]
  · intro l n hev
    have hne : ¬ (floating_list g).isEmpty = true := by
      intro hfe
      unfold detect_floating_bubbles at hev
      rw [if_pos hfe] at hev
      cases hev
    unfold detect_floating_bubbles at hev
    rw [if_neg hne] at hev
    have h5 : some (floating_list g, (floating_list g).length) = some (l, n) := hev
    have h6 := Option.some.inj h5
    have hl1 : floating_list g = l := congrArg Prod.fst h6
    have hl2 : (floating_list g).length = n := congrArg Prod.snd h6
    subst hl1
    refine ⟨fun c => mem_floating_iff g c, hl2.symm, ?_, ?_⟩
    · unfold floating_list
      exact List.Nodup.filter _ hnd
    · intro h0
      exact hne (by rw [h0]; rfl)

/-- C4 witness: in the fixture with a detached bubble at (0,2), the floating
pass reports exactly that cell, with count 1, as a nonempty, duplicate-free
event payload. -/
theorem detect_floating_witness :
    (∀ c, c ∈ [(⟨0, 2⟩ : HexCoord)] ↔
      (HexGrid.is_occupied wgrid3 c = true ∧ c ∉ find_anchored_bubbles wgrid3)) ∧
    1 = [(⟨0, 2⟩ : HexCoord)].length ∧
    ([(⟨0, 2⟩ : HexCoord)]).Nodup ∧ [(⟨0, 2⟩ : HexCoord)] ≠ [] :=
  (detect_floating_spec wgrid3 (by decide)).2.2.2 [⟨0, 2⟩] 1 (by decide)

/-- C10: on a non-empty grid every occupied minimum-row coordinate is in the
anchored set (those cells seed the anchoring BFS), so the floating pass
never removes a minimum-row bubble and never turns a non-empty grid into an
empty one. -/
theorem floating_keeps_top_row (g : HexGrid) (h : g.is_empty = false) :
    (∀ c ∈ g.top_row_coords, c ∈ find_anchored_bubbles g) ∧
    (∀ c ∈ g.top_row_coords,
      (detect_floating_bubbles g).grid.is_occupied c = true) ∧
    (detect_floating_bubbles g).grid.is_empty = false := by
  have hseed : ∀ c ∈ g.top_row_coords, c ∈ find_anchored_bubbles g := by
    intro c hc
    unfold find_anchored_bubbles
    exact find_anchored_aux_superset g _ _ _ _ (List.mem_toFinset.2 hc)
  have hocc : ∀ c ∈ g.top_row_coords,
      (detect_floating_bubbles g).grid.is_occupied c = true := by
    intro c hc
    rw [detect_floating_grid_occupied]
    refine ⟨top_row_occupied g c hc, ?_⟩
    rw [mem_floating_iff]
    exact fun hf => hf.2 (hseed c hc)
  refine ⟨hseed, hocc, ?_⟩
  obtain ⟨c0, hc0⟩ := top_row_nonempty g h
  exact is_empty_false_of_occupied _ c0 (hocc c0 hc0)

/-- C10 witness: the fixture grid is non-empty; its top-row bubble at (0,0)
is anchored, survives the floating pass, and the resulting grid is still
non-empty. -/
theorem floating_keeps_top_row_witness :
    (∀ c ∈ HexGrid.top_row_coords wgrid3, c ∈ find_anchored_bubbles wgrid3) ∧
    (∀ c ∈ HexGrid.top_row_coords wgrid3,
      (detect_floating_bubbles wgrid3).grid.is_occupied c = true) ∧
    (detect_floating_bubbles wgrid3).grid.is_empty = false :=
  floating_keeps_top_row wgrid3 (by decide)

end Snord
